import Mathlib

set_option maxHeartbeats 1000000

/-!
Verification of the collectible-card engine in src/bot.py.

The stateful SQLite tables are embedded as Lean lists of rows (one structure per
table), and each state-changing handler becomes a pure function from a `DB` to a
result paired with the next `DB`.  Randomness (`random.choices` for the rarity,
`random.choice` for the card) is modelled by passing the drawn rarity and a
choice index as explicit inputs; the wall clock (`time.time()`) is an explicit
`now : Int` input.  Presentation (embeds, messages) is omitted; only the
state-changing core of each handler is embedded.
-/

namespace BLTCG

/-- Cooldown between pulls, src/bot.py line 28: `PULL_COOLDOWN_SECONDS = 5 * 60 * 60`. -/
def PULL_COOLDOWN_SECONDS : Int := 5 * 60 * 60

/-- Duplicate-reward constant used on the shop path, src/bot.py line 29
(environment default "5"). -/
def DUPLICATE_COINS : Int := 5

/-- A row of the `cards` table (src/bot.py lines 87-96). -/
structure Card where
  id : String
  name : String
  rarity : String
  image_url : String
  flow : Option Int
  punchlines : Option Int
  style : Option Int
  reputation : Option Int
  deriving DecidableEq

/-- A row of the `users` table (src/bot.py lines 98-102); column defaults 0. -/
structure UserRow where
  user_id : Nat
  last_pull_ts : Int
  coins : Int
  deriving DecidableEq

/-- A row of the `user_cards` table (src/bot.py lines 104-110). -/
structure HoldingRow where
  user_id : Nat
  card_id : String
  qty : Int
  deriving DecidableEq

/-- A row of the `trades` table (src/bot.py lines 117-127). -/
structure TradeRow where
  trade_id : Nat
  from_user : Nat
  to_user : Nat
  from_card_id : String
  to_card_id : String
  qty_from : Int
  qty_to : Int
  status : String
  created_ts : Int
  deriving DecidableEq

/-- The whole persistent store.  `next_trade_id` models the AUTOINCREMENT
counter of the `trades` table (starts at 1). -/
structure DB where
  cards : List Card
  users : List UserRow
  user_cards : List HoldingRow
  trades : List TradeRow
  next_trade_id : Nat
  deriving DecidableEq

/-- Row predicate for the `user_cards` primary key (user_id, card_id). -/
def keyP (u : Nat) (c : String) (h : HoldingRow) : Bool :=
  h.user_id == u && h.card_id == c

/-- SELECT qty FROM user_cards WHERE user_id = ? AND card_id = ? (src/bot.py line 147). -/
def findRow (l : List HoldingRow) (u : Nat) (c : String) : Option HoldingRow :=
  l.find? (keyP u c)

/-- Quantity held, reading 0 when the row is absent. -/
def qtyOf (l : List HoldingRow) (u : Nat) (c : String) : Int :=
  match findRow l u c with
  | some h => h.qty
  | none => 0

/-- user_has_card_qty, src/bot.py lines 145-149: `bool(row and row[0] >= qty)`. -/
def user_has_card_qty (db : DB) (u : Nat) (c : String) (q : Int) : Bool :=
  match findRow db.user_cards u c with
  | some h => decide (q ≤ h.qty)
  | none => false

/-- Per-row effect of
UPDATE user_cards SET qty = qty - ? WHERE user_id = ? AND card_id = ? AND qty >= ?
(src/bot.py line 153). -/
def decFun (f : Nat) (c : String) (q : Int) (h : HoldingRow) : HoldingRow :=
  if keyP f c h && decide (q ≤ h.qty) then ⟨h.user_id, h.card_id, h.qty - q⟩ else h

/-- The conditional decrement applied to the whole table. -/
def decStep (l : List HoldingRow) (f : Nat) (c : String) (q : Int) : List HoldingRow :=
  l.map (decFun f c q)

/-- DELETE FROM user_cards WHERE user_id = ? AND card_id = ? AND qty <= 0
(src/bot.py line 155). -/
def delStep (l : List HoldingRow) (f : Nat) (c : String) : List HoldingRow :=
  l.filter (fun h => !(keyP f c h && decide (h.qty ≤ 0)))

/-- Per-row effect of the upsert increment. -/
def incFun (t : Nat) (c : String) (q : Int) (h : HoldingRow) : HoldingRow :=
  if keyP t c h then ⟨h.user_id, h.card_id, h.qty + q⟩ else h

/-- INSERT INTO user_cards(user_id, card_id, qty) VALUES (?, ?, ?)
ON CONFLICT(user_id, card_id) DO UPDATE SET qty = qty + ? (src/bot.py lines 157-161). -/
def incStep (l : List HoldingRow) (t : Nat) (c : String) (q : Int) : List HoldingRow :=
  if l.any (keyP t c) then l.map (incFun t c q) else l ++ [⟨t, c, q⟩]

/-- transfer_card, src/bot.py lines 151-162. -/
def transfer_card (db : DB) (user_from user_to : Nat) (card_id : String) (q : Int) : DB :=
  { db with user_cards := incStep (delStep (decStep db.user_cards user_from card_id q) user_from card_id) user_to card_id q }

/-- SELECT the row of the `users` table for one user. -/
def findUser (l : List UserRow) (u : Nat) : Option UserRow :=
  l.find? (fun r => r.user_id == u)

/-- get_coins, src/bot.py lines 374-378. -/
def get_coins (db : DB) (u : Nat) : Int :=
  match findUser db.users u with
  | some r => r.coins
  | none => 0

/-- The INSERT ... ON CONFLICT(user_id) DO UPDATE pattern shared by the three
`users`-table writers: update the conflicting row with `g`, or append `new`. -/
def upsert (l : List UserRow) (v : Nat) (g : UserRow → UserRow) (new : UserRow) : List UserRow :=
  if l.any (fun r => r.user_id == v) then
    l.map (fun r => if r.user_id == v then g r else r)
  else l ++ [new]

/-- add_coins, src/bot.py lines 365-372: INSERT INTO users(user_id, coins) ...
ON CONFLICT DO UPDATE SET coins = COALESCE(coins,0) + amount.  A fresh row takes
the schema default last_pull_ts 0. -/
def add_coins (db : DB) (u : Nat) (amount : Int) : DB :=
  { db with users :=
      upsert db.users u (fun r => ⟨r.user_id, r.last_pull_ts, r.coins + amount⟩) ⟨u, 0, amount⟩ }

/-- set_coins, src/bot.py lines 595-602. -/
def set_coins (db : DB) (u : Nat) (v : Int) : DB :=
  { db with users :=
      upsert db.users u (fun r => ⟨r.user_id, r.last_pull_ts, v⟩) ⟨u, 0, v⟩ }

/-- mark_pulled, src/bot.py lines 339-347; a fresh row takes the coins default 0. -/
def mark_pulled (db : DB) (u : Nat) (now : Int) : DB :=
  { db with users :=
      upsert db.users u (fun r => ⟨r.user_id, now, r.coins⟩) ⟨u, now, 0⟩ }

/-- The stored last_pull_ts for a user (0 when the row is absent),
src/bot.py line 335. -/
def lastPullTs (db : DB) (u : Nat) : Int :=
  match findUser db.users u with
  | some r => r.last_pull_ts
  | none => 0

/-- get_time_left, src/bot.py lines 330-337, with the clock passed explicitly:
`left = PULL_COOLDOWN_SECONDS - max(0, now - last_ts); return max(0, left)`. -/
def get_time_left (db : DB) (u : Nat) (now : Int) : Int :=
  max 0 (PULL_COOLDOWN_SECONDS - max 0 (now - lastPullTs db u))

/-- pick_random_card_for_rarity, src/bot.py lines 357-363; `random.choice` is
modelled by an explicit index into the filtered rows. -/
def pick_random_card_for_rarity (db : DB) (rarity : String) (i : Nat) : Option Card :=
  let rows := db.cards.filter (fun c => c.rarity == rarity)
  if rows.isEmpty then none else rows.get? (i % rows.length)

/-- add_to_inventory, src/bot.py lines 380-392; returns (duplicate, new state). -/
def add_to_inventory (db : DB) (u : Nat) (c : String) : Bool × DB :=
  ((findRow db.user_cards u c).isSome,
    { db with user_cards := incStep db.user_cards u c 1 })

/-- Result of the /karte pull. -/
inductive PullResult where
  | cooldown (remaining : Int)
  | emptyPool
  | pulled (card : Card) (duplicate : Bool)
  deriving DecidableEq

/-- The state-changing core of the /karte handler daily_card,
src/bot.py lines 397-467: cooldown check, draw, inventory update, cooldown
stamp, and the literal 2-coin duplicate grant of line 432. -/
def daily_card (db : DB) (u : Nat) (now : Int) (rarity : String) (i : Nat) :
    PullResult × DB :=
  let left := get_time_left db u now
  if 0 < left then (.cooldown left, db)
  else
    match pick_random_card_for_rarity db rarity i with
    | none => (.emptyPool, db)
    | some card =>
      let p := add_to_inventory db u card.id
      let db1 := mark_pulled p.2 u now
      let db2 := if p.1 then add_coins db1 u 2 else db1
      (.pulled card p.1, db2)

/-- UPDATE users SET coins = COALESCE(coins,0) - 10 WHERE user_id = ?
AND COALESCE(coins,0) >= 10 (src/bot.py lines 481-486). -/
def deduct10 (db : DB) (u : Nat) : DB :=
  { db with users :=
      db.users.map (fun r =>
        if r.user_id == u && decide (10 ≤ r.coins) then ⟨r.user_id, r.last_pull_ts, r.coins - 10⟩
        else r) }

/-- Result of the /shop purchase. -/
inductive ShopResult where
  | notEnoughCoins (coins : Int)
  | emptyPool
  | bought (card : Card) (duplicate : Bool)
  deriving DecidableEq

/-- The state-changing core of the /shop handler, src/bot.py lines 469-537:
price check, the 10-coin conditional deduction, then the draw; note that the
deduction happens before the draw and is not rolled back on an empty pool. -/
def shop (db : DB) (u : Nat) (rarity : String) (i : Nat) : ShopResult × DB :=
  let coins := get_coins db u
  if coins < 10 then (.notEnoughCoins coins, db)
  else
    let db1 := deduct10 db u
    match pick_random_card_for_rarity db1 rarity i with
    | none => (.emptyPool, db1)
    | some card =>
      let p := add_to_inventory db1 u card.id
      let db2 := if p.1 then add_coins p.2 u DUPLICATE_COINS else p.2
      (.bought card p.1, db2)

/-- SELECT ... FROM trades WHERE trade_id = ? (src/bot.py lines 222-225). -/
def get_trade (db : DB) (tid : Nat) : Option TradeRow :=
  db.trades.find? (fun t => t.trade_id == tid)

/-- UPDATE trades SET status = ? WHERE trade_id = ? (src/bot.py lines 246, 259);
note the update is not guarded by the current status. -/
def set_trade_status (db : DB) (tid : Nat) (s : String) : DB :=
  { db with trades :=
      db.trades.map (fun t =>
        if t.trade_id == tid then
          ⟨t.trade_id, t.from_user, t.to_user, t.from_card_id, t.to_card_id,
            t.qty_from, t.qty_to, s, t.created_ts⟩
        else t) }

/-- Result of the /trade proposal. -/
inductive TradeStartResult where
  | selfTrade
  | proposerLacks
  | partnerLacks
  | created (tid : Nat)
  deriving DecidableEq

/-- The state-changing core of the /trade handler trade_start,
src/bot.py lines 263-298: self-trade check, the two advisory ownership checks,
then INSERT of a row whose status takes the schema default 'pending'. -/
def trade_start (db : DB) (proposer counterparty : Nat) (myCard theirCard : String)
    (myQty theirQty : Int) (now : Int) : TradeStartResult × DB :=
  if proposer == counterparty then (.selfTrade, db)
  else if !(user_has_card_qty db proposer myCard myQty) then (.proposerLacks, db)
  else if !(user_has_card_qty db counterparty theirCard theirQty) then (.partnerLacks, db)
  else
    (.created db.next_trade_id,
      { db with
        trades := db.trades ++
          [⟨db.next_trade_id, proposer, counterparty, myCard, theirCard, myQty, theirQty,
            "pending", now⟩],
        next_trade_id := db.next_trade_id + 1 })

/-- Result of pressing the trade accept button. -/
inductive AcceptResult where
  | notFound
  | wrongActor
  | notPending
  | proposerLacksNow
  | counterpartyLacksNow
  | settled
  deriving DecidableEq

/-- TradeView.accept_btn, src/bot.py lines 227-249. -/
def accept_btn (db : DB) (tid actor : Nat) : AcceptResult × DB :=
  match get_trade db tid with
  | none => (.notFound, db)
  | some t =>
    if actor ≠ t.to_user then (.wrongActor, db)
    else if t.status ≠ "pending" then (.notPending, db)
    else if !(user_has_card_qty db t.from_user t.from_card_id t.qty_from) then
      (.proposerLacksNow, db)
    else if !(user_has_card_qty db t.to_user t.to_card_id t.qty_to) then
      (.counterpartyLacksNow, db)
    else
      let db1 := transfer_card db t.from_user t.to_user t.from_card_id t.qty_from
      let db2 := transfer_card db1 t.to_user t.from_user t.to_card_id t.qty_to
      (.settled, set_trade_status db2 tid "done")

/-- Result of pressing the trade cancel button. -/
inductive CancelResult where
  | notFound
  | wrongActor
  | cancelled
  deriving DecidableEq

/-- TradeView.cancel_btn, src/bot.py lines 251-261: participants only, but the
status update is unconditional (no check that the trade is still pending). -/
def cancel_btn (db : DB) (tid actor : Nat) : CancelResult × DB :=
  match get_trade db tid with
  | none => (.notFound, db)
  | some t =>
    if ¬ (actor = t.from_user ∨ actor = t.to_user) then (.wrongActor, db)
    else (.cancelled, set_trade_status db tid "cancelled")

/-- One currency-ledger operation, as exposed by the handlers:
grant mirrors /coins_add (src/bot.py lines 617-635), spend mirrors the /shop
price check plus conditional decrement (lines 476-486), setExact mirrors
/coins_set (lines 637-651). -/
inductive CoinOp where
  | grant (u : Nat) (amount : Int)
  | spend (u : Nat)
  | setExact (u : Nat) (v : Int)
  deriving DecidableEq

/-- Apply one ledger operation, including each handler's input validation. -/
def applyCoinOp (db : DB) (op : CoinOp) : DB :=
  match op with
  | .grant u a => if a = 0 then db else if a < 0 then db else add_coins db u a
  | .spend u => if get_coins db u < 10 then db else deduct10 db u
  | .setExact u v => if v < 0 then db else set_coins db u v

/-- The empty store (fresh database, AUTOINCREMENT at 1). -/
def freshDB : DB := ⟨[], [], [], [], 1⟩

/-- Run a sequence of ledger operations from the fresh store. -/
def runCoinOps (ops : List CoinOp) : DB := ops.foldl applyCoinOp freshDB

/-- The CASE rarity point values of the leaderboard query,
src/bot.py lines 176-181. -/
def casePoints (r : String) : Int :=
  if r == "Legendary" then 10
  else if r == "Ultra Rare" then 5
  else if r == "Rare" then 2
  else 1

/-- The rows of `user_cards JOIN cards` belonging to one user
(src/bot.py lines 183-184). -/
def joinedRows (db : DB) (u : Nat) : List (HoldingRow × Card) :=
  (db.user_cards.filter (fun h => h.user_id == u)).filterMap
    (fun h => (db.cards.find? (fun cd => cd.id == h.card_id)).map (fun cd => (h, cd)))

/-- SUM(uc.qty) for one user over the join (src/bot.py line 174). -/
def cards_total (db : DB) (u : Nat) : Int :=
  ((joinedRows db u).map (fun p => p.1.qty)).sum

/-- SUM(uc.qty * CASE c.rarity ...) for one user over the join
(src/bot.py lines 175-182). -/
def score (db : DB) (u : Nat) : Int :=
  ((joinedRows db u).map (fun p => p.1.qty * casePoints p.2.rarity)).sum

/-- One leaderboard output row (user_id, cards_total, score). -/
structure LBEntry where
  user_id : Nat
  cards_total : Int
  score : Int
  deriving DecidableEq

/-- ORDER BY score DESC, cards_total DESC as a relation on output rows:
an entry may precede another exactly when its score is higher, or the scores
are equal and its total is at least as large. -/
def lbLE (a b : LBEntry) : Prop :=
  b.score < a.score ∨ (a.score = b.score ∧ b.cards_total ≤ a.cards_total)

instance : DecidableRel lbLE := fun a b =>
  inferInstanceAs (Decidable (b.score < a.score ∨ (a.score = b.score ∧ b.cards_total ≤ a.cards_total)))

instance : IsTotal LBEntry lbLE where
  total a b := by
    unfold lbLE
    rcases lt_trichotomy a.score b.score with h | h | h
    · exact Or.inr (Or.inl h)
    · rcases le_total b.cards_total a.cards_total with h' | h'
      · exact Or.inl (Or.inr ⟨h, h'⟩)
      · exact Or.inr (Or.inr ⟨h.symm, h'⟩)
    · exact Or.inl (Or.inl h)

instance : IsTrans LBEntry lbLE where
  trans a b c hab hbc := by
    unfold lbLE at *
    rcases hab with h1 | ⟨h1, h1'⟩ <;> rcases hbc with h2 | ⟨h2, h2'⟩
    · exact Or.inl (lt_trans h2 h1)
    · exact Or.inl (h2 ▸ h1)
    · exact Or.inl (h1 ▸ h2)
    · exact Or.inr ⟨h1.trans h2, le_trans h2' h1'⟩

/-- get_collection_leaderboard, src/bot.py lines 164-193: GROUP BY user over the
join, ORDER BY score DESC then cards_total DESC, LIMIT. -/
def get_collection_leaderboard (db : DB) (limit : Nat) : List LBEntry :=
  let grouped := ((db.user_cards.map (fun h => h.user_id)).dedup).map
    (fun u => LBEntry.mk u (cards_total db u) (score db u))
  (List.insertionSort lbLE grouped).take limit

/-! ### List toolkit -/

theorem find?_append_right {α : Type} (l1 l2 : List α) (p : α → Bool) (h : l1.find? p = none) :
    (l1 ++ l2).find? p = l2.find? p := by
  induction l1 with
  | nil => rfl
  | cons a t ih =>
    by_cases hp : p a = true
    · rw [List.find?_cons_of_pos t hp] at h; exact absurd h (by simp)
    · rw [List.find?_cons_of_neg t hp] at h
      rw [List.cons_append, List.find?_cons_of_neg _ hp]
      exact ih h

theorem find?_append_left {α : Type} (l1 l2 : List α) (p : α → Bool) (a : α)
    (h : l1.find? p = some a) : (l1 ++ l2).find? p = some a := by
  induction l1 with
  | nil => exact absurd h (by simp)
  | cons b t ih =>
    by_cases hp : p b = true
    · rw [List.find?_cons_of_pos t hp] at h
      rw [List.cons_append, List.find?_cons_of_pos _ hp]
      exact h
    · rw [List.find?_cons_of_neg t hp] at h
      rw [List.cons_append, List.find?_cons_of_neg _ hp]
      exact ih h

theorem find?_map_pred {α : Type} (g : α → α) (p : α → Bool) (l : List α)
    (hg : ∀ a, p (g a) = p a) :
    (l.map g).find? p = (l.find? p).map g := by
  induction l with
  | nil => rfl
  | cons a t ih =>
    by_cases hp : p a = true
    · rw [List.map_cons, List.find?_cons_of_pos _ (by rw [hg]; exact hp),
        List.find?_cons_of_pos _ hp, Option.map_some']
    · rw [List.map_cons, List.find?_cons_of_neg _ (by rw [hg]; exact hp),
        List.find?_cons_of_neg _ hp]
      exact ih

theorem find?_filter_keep {α : Type} (p keep : α → Bool) (l : List α)
    (h : ∀ a, p a = true → keep a = true) :
    (l.filter keep).find? p = l.find? p := by
  induction l with
  | nil => rfl
  | cons a t ih =>
    by_cases hk : keep a = true
    · rw [List.filter_cons_of_pos hk]
      by_cases hp : p a = true
      · rw [List.find?_cons_of_pos _ hp, List.find?_cons_of_pos _ hp]
      · rw [List.find?_cons_of_neg _ hp, List.find?_cons_of_neg _ hp]; exact ih
    · rw [List.filter_cons_of_neg hk]
      have hp : ¬ p a = true := fun hpa => hk (h a hpa)
      rw [List.find?_cons_of_neg _ hp]
      exact ih

theorem find?_none_of_any_false {α : Type} (l : List α) (p : α → Bool) (h : l.any p = false) :
    l.find? p = none := by
  rw [List.find?_eq_none]
  intro x hx
  simp only [List.any_eq_false] at h
  exact h x hx

/-! ### Holdings-table lemmas -/

/-- The primary key (user_id, card_id) of a `user_cards` row. -/
def keyOf (h : HoldingRow) : Nat × String := (h.user_id, h.card_id)

/-- The PRIMARY KEY (user_id, card_id) constraint of the `user_cards` table. -/
def keysNodup (l : List HoldingRow) : Prop := (l.map keyOf).Nodup

instance keysNodupDec (l : List HoldingRow) : Decidable (keysNodup l) :=
  inferInstanceAs (Decidable (l.map keyOf).Nodup)

theorem keyP_iff (u : Nat) (c : String) (h : HoldingRow) :
    keyP u c h = true ↔ h.user_id = u ∧ h.card_id = c := by
  simp [keyP]

theorem keyOf_decFun (f : Nat) (c : String) (q : Int) (h : HoldingRow) :
    keyOf (decFun f c q h) = keyOf h := by
  unfold decFun; split <;> rfl

theorem keyOf_incFun (t : Nat) (c : String) (q : Int) (h : HoldingRow) :
    keyOf (incFun t c q h) = keyOf h := by
  unfold incFun; split <;> rfl

theorem keyP_congr_keyOf (u : Nat) (c : String) (a b : HoldingRow)
    (hab : keyOf a = keyOf b) : keyP u c a = keyP u c b := by
  have h1 : a.user_id = b.user_id := congrArg Prod.fst hab
  have h2 : a.card_id = b.card_id := congrArg Prod.snd hab
  unfold keyP
  rw [h1, h2]

theorem findRow_decStep (l : List HoldingRow) (f : Nat) (c : String) (q : Int)
    (u : Nat) (c' : String) :
    findRow (decStep l f c q) u c' = (findRow l u c').map (decFun f c q) :=
  find?_map_pred _ _ l (fun a => keyP_congr_keyOf u c' _ a (keyOf_decFun f c q a))

theorem findRow_delStep_other (l : List HoldingRow) (f : Nat) (c : String)
    (u : Nat) (c' : String) (hne : ¬ (u = f ∧ c' = c)) :
    findRow (delStep l f c) u c' = findRow l u c' := by
  apply find?_filter_keep
  intro a ha
  rcases (keyP_iff u c' a).1 ha with ⟨h1, h2⟩
  have hk : keyP f c a = false := by
    rcases Bool.eq_false_or_eq_true (keyP f c a) with hk' | hk'
    · rcases (keyP_iff f c a).1 hk' with ⟨g1, g2⟩
      exact absurd ⟨h1.symm.trans g1, h2.symm.trans g2⟩ hne
    · exact hk'
  simp [hk]

theorem findRow_delStep_self (l : List HoldingRow) (f : Nat) (c : String)
    (hnd : keysNodup l) :
    findRow (delStep l f c) f c =
      match findRow l f c with
      | some h => if h.qty ≤ 0 then none else some h
      | none => none := by
  induction l with
  | nil => rfl
  | cons a t ih =>
    rw [keysNodup, List.map_cons, List.nodup_cons] at hnd
    by_cases hk : keyP f c a = true
    · have hfr : findRow (a :: t) f c = some a := List.find?_cons_of_pos t hk
      rcases (keyP_iff f c a).1 hk with ⟨h1, h2⟩
      by_cases hq : a.qty ≤ 0
      · have hstep : delStep (a :: t) f c = delStep t f c := by
          unfold delStep
          rw [List.filter_cons_of_neg]
          simp [hk, hq]
        rw [hstep, hfr]
        simp only [hq, if_true]
        rw [findRow, List.find?_eq_none]
        intro x hx hpx
        have hxt : x ∈ t := List.mem_of_mem_filter hx
        rcases (keyP_iff f c x).1 hpx with ⟨g1, g2⟩
        apply hnd.1
        rw [List.mem_map]
        refine ⟨x, hxt, ?_⟩
        unfold keyOf
        rw [g1, g2, h1, h2]
      · have hstep : delStep (a :: t) f c = a :: delStep t f c := by
          unfold delStep
          rw [List.filter_cons_of_pos]
          simp [hq]
        rw [hstep, hfr]
        simp only [hq, if_false]
        exact List.find?_cons_of_pos _ hk
    · have hfr : findRow (a :: t) f c = findRow t f c := List.find?_cons_of_neg t hk
      have hstep : delStep (a :: t) f c = a :: delStep t f c := by
        unfold delStep
        rw [List.filter_cons_of_pos]
        simp [hk]
      rw [hstep, hfr, findRow, List.find?_cons_of_neg _ hk]
      exact ih hnd.2

theorem qtyOf_incStep (l : List HoldingRow) (t : Nat) (c : String) (q : Int)
    (u : Nat) (c' : String) :
    qtyOf (incStep l t c q) u c' = qtyOf l u c' + (if u = t ∧ c' = c then q else 0) := by
  have hpres : ∀ a, keyP u c' (incFun t c q a) = keyP u c' a :=
    fun a => keyP_congr_keyOf u c' _ a (keyOf_incFun t c q a)
  by_cases hc : u = t ∧ c' = c
  · rcases hc with ⟨rfl, rfl⟩
    rw [if_pos ⟨rfl, rfl⟩]
    by_cases hany : l.any (keyP u c') = true
    · rw [incStep, if_pos hany]
      unfold qtyOf findRow
      rw [find?_map_pred _ _ l hpres]
      have hex : ∃ x ∈ l, keyP u c' x := List.any_eq_true.1 hany
      obtain ⟨h0, hsome⟩ := Option.isSome_iff_exists.1 (List.find?_isSome.2 hex)
      rw [hsome]
      have hk := List.find?_some hsome
      simp [incFun, hk]
    · rw [incStep, if_neg hany]
      have hanyf : l.any (keyP u c') = false := by
        rcases Bool.eq_false_or_eq_true (l.any (keyP u c')) with h | h
        · exact absurd h hany
        · exact h
      have hnone : l.find? (keyP u c') = none := find?_none_of_any_false l _ hanyf
      unfold qtyOf findRow
      rw [find?_append_right _ _ _ hnone, hnone]
      simp [keyP]
  · rw [if_neg hc, add_zero]
    by_cases hany : l.any (keyP t c) = true
    · rw [incStep, if_pos hany]
      unfold qtyOf findRow
      rw [find?_map_pred _ _ l hpres]
      cases hr : l.find? (keyP u c') with
      | none => rfl
      | some h =>
        rcases (keyP_iff u c' h).1 (List.find?_some hr) with ⟨g1, g2⟩
        have hfix : incFun t c q h = h := by
          unfold incFun
          rw [if_neg]
          intro hkt
          rcases (keyP_iff t c h).1 hkt with ⟨e1, e2⟩
          exact hc ⟨g1.symm.trans e1, g2.symm.trans e2⟩
        rw [Option.map_some', hfix]
    · rw [incStep, if_neg hany]
      unfold qtyOf findRow
      cases hr : l.find? (keyP u c') with
      | none =>
        have hknew : ¬ keyP u c' (⟨t, c, q⟩ : HoldingRow) = true := by
          intro h
          rcases (keyP_iff u c' _).1 h with ⟨e1, e2⟩
          exact hc ⟨e1.symm, e2.symm⟩
        rw [find?_append_right _ _ _ hr, List.find?_cons_of_neg _ hknew, List.find?_nil]
      | some h => rw [find?_append_left _ _ _ _ hr]

theorem keysNodup_decStep (l : List HoldingRow) (f : Nat) (c : String) (q : Int)
    (hnd : keysNodup l) : keysNodup (decStep l f c q) := by
  unfold keysNodup decStep at *
  rw [List.map_map]
  have : l.map (keyOf ∘ decFun f c q) = l.map keyOf :=
    List.map_congr_left (fun a _ => keyOf_decFun f c q a)
  rw [this]
  exact hnd

theorem keysNodup_delStep (l : List HoldingRow) (f : Nat) (c : String)
    (hnd : keysNodup l) : keysNodup (delStep l f c) := by
  unfold keysNodup at *
  exact hnd.sublist ((List.filter_sublist l).map keyOf)

theorem keysNodup_incStep (l : List HoldingRow) (t : Nat) (c : String) (q : Int)
    (hnd : keysNodup l) : keysNodup (incStep l t c q) := by
  unfold keysNodup incStep at *
  by_cases hany : l.any (keyP t c) = true
  · rw [if_pos hany, List.map_map]
    have : l.map (keyOf ∘ incFun t c q) = l.map keyOf :=
      List.map_congr_left (fun a _ => keyOf_incFun t c q a)
    rw [this]
    exact hnd
  · rw [if_neg hany, List.map_append]
    rw [List.nodup_append]
    refine ⟨hnd, by simp, ?_⟩
    intro x hx hx2
    simp only [List.map_cons, List.map_nil, List.mem_singleton] at hx2
    rcases List.mem_map.1 hx with ⟨h, hmem, hkey⟩
    apply hany
    rw [List.any_eq_true]
    refine ⟨h, hmem, ?_⟩
    rw [keyP_iff]
    have hk : keyOf h = keyOf (⟨t, c, q⟩ : HoldingRow) := by rw [hkey]; exact hx2
    exact ⟨congrArg Prod.fst hk, congrArg Prod.snd hk⟩

theorem keysNodup_transfer_card (db : DB) (f t : Nat) (c : String) (q : Int)
    (hnd : keysNodup db.user_cards) : keysNodup (transfer_card db f t c q).user_cards :=
  keysNodup_incStep _ _ _ _ (keysNodup_delStep _ _ _ (keysNodup_decStep _ _ _ _ hnd))

theorem qtyOf_some (l : List HoldingRow) (u : Nat) (c : String) (h : HoldingRow)
    (hr : findRow l u c = some h) : qtyOf l u c = h.qty := by
  unfold qtyOf
  rw [hr]

theorem qtyOf_none (l : List HoldingRow) (u : Nat) (c : String)
    (hr : findRow l u c = none) : qtyOf l u c = 0 := by
  unfold qtyOf
  rw [hr]

theorem user_has_card_qty_iff (db : DB) (u : Nat) (c : String) (q : Int) :
    user_has_card_qty db u c q = true ↔
      ∃ h, findRow db.user_cards u c = some h ∧ q ≤ h.qty := by
  unfold user_has_card_qty
  cases hr : findRow db.user_cards u c with
  | none => simp
  | some h => simp

theorem user_has_card_qty_of_le (db : DB) (u : Nat) (c : String) (q : Int)
    (h1 : 0 < q) (h2 : q ≤ qtyOf db.user_cards u c) :
    user_has_card_qty db u c q = true := by
  unfold user_has_card_qty
  cases hr : findRow db.user_cards u c with
  | none => rw [qtyOf_none _ _ _ hr] at h2; omega
  | some x => rw [qtyOf_some _ _ _ _ hr] at h2; simpa using h2

theorem qtyOf_decStep_self (l : List HoldingRow) (f : Nat) (c : String) (q : Int)
    (h0 : HoldingRow) (hfind : findRow l f c = some h0) (hq : q ≤ h0.qty) :
    qtyOf (decStep l f c q) f c = h0.qty - q := by
  unfold qtyOf
  rw [findRow_decStep, hfind, Option.map_some']
  have hck : keyP f c h0 = true := List.find?_some hfind
  have hcond : (keyP f c h0 && decide (q ≤ h0.qty)) = true := by rw [hck]; simpa using hq
  unfold decFun
  rw [if_pos hcond]

theorem qtyOf_decStep_other (l : List HoldingRow) (f : Nat) (c : String) (q : Int)
    (u : Nat) (c' : String) (hne : ¬ (u = f ∧ c' = c)) :
    qtyOf (decStep l f c q) u c' = qtyOf l u c' := by
  unfold qtyOf
  rw [findRow_decStep]
  cases hr : findRow l u c' with
  | none => rfl
  | some h =>
    rcases (keyP_iff u c' h).1 (List.find?_some hr) with ⟨g1, g2⟩
    have hkp : keyP f c h = false := by
      rcases Bool.eq_false_or_eq_true (keyP f c h) with hx | hx
      · rcases (keyP_iff f c h).1 hx with ⟨e1, e2⟩
        exact absurd ⟨g1.symm.trans e1, g2.symm.trans e2⟩ hne
      · exact hx
    have hfix : decFun f c q h = h := by
      unfold decFun
      rw [hkp]
      simp
    rw [Option.map_some', hfix]

theorem qtyOf_delStep_self (l : List HoldingRow) (f : Nat) (c : String)
    (hnd : keysNodup l) (hge : 0 ≤ qtyOf l f c) :
    qtyOf (delStep l f c) f c = qtyOf l f c := by
  have hdel := findRow_delStep_self l f c hnd
  cases hr : findRow l f c with
  | none =>
    rw [hr] at hdel
    rw [qtyOf_none _ _ _ hdel, qtyOf_none _ _ _ hr]
  | some h =>
    rw [hr] at hdel
    have hdel' : findRow (delStep l f c) f c = if h.qty ≤ 0 then none else some h := hdel
    rw [qtyOf_some _ _ _ _ hr] at hge ⊢
    by_cases hz : h.qty ≤ 0
    · rw [if_pos hz] at hdel'
      rw [qtyOf_none _ _ _ hdel']
      omega
    · rw [if_neg hz] at hdel'
      rw [qtyOf_some _ _ _ _ hdel']

theorem qtyOf_delStep_other (l : List HoldingRow) (f : Nat) (c : String)
    (u : Nat) (c' : String) (hne : ¬ (u = f ∧ c' = c)) :
    qtyOf (delStep l f c) u c' = qtyOf l u c' := by
  unfold qtyOf
  rw [findRow_delStep_other _ _ _ _ _ hne]

/-- Pointwise effect of one `transfer_card` on every holding, under the
primary-key invariant, a sufficient sender holding, and distinct parties. -/
theorem qtyOf_transfer_card (db : DB) (f t : Nat) (c : String) (q : Int)
    (hnd : keysNodup db.user_cards)
    (h0 : HoldingRow) (hfind : findRow db.user_cards f c = some h0) (hq : q ≤ h0.qty)
    (hft : f ≠ t) (u : Nat) (c' : String) :
    qtyOf (transfer_card db f t c q).user_cards u c' =
      qtyOf db.user_cards u c' + (if u = f ∧ c' = c then -q else 0)
        + (if u = t ∧ c' = c then q else 0) := by
  have hstep : (transfer_card db f t c q).user_cards
      = incStep (delStep (decStep db.user_cards f c q) f c) t c q := rfl
  rw [hstep, qtyOf_incStep]
  by_cases hA : u = f ∧ c' = c
  · have hBne : ¬ (u = t ∧ c' = c) := fun hB => hft (hA.1.symm.trans hB.1)
    rw [if_pos hA, if_neg hBne, add_zero, add_zero]
    obtain ⟨rfl, rfl⟩ := hA
    have hdec := qtyOf_decStep_self db.user_cards u c' q h0 hfind hq
    have hge : 0 ≤ qtyOf (decStep db.user_cards u c' q) u c' := by rw [hdec]; omega
    rw [qtyOf_delStep_self _ _ _ (keysNodup_decStep _ _ _ _ hnd) hge, hdec,
      qtyOf_some _ _ _ _ hfind]
    ring
  · rw [if_neg hA, add_zero]
    rw [qtyOf_delStep_other _ _ _ _ _ hA, qtyOf_decStep_other _ _ _ _ _ _ hA]

theorem pos_decStep (l : List HoldingRow) (f : Nat) (c : String) (q : Int)
    (hpos : ∀ h ∈ l, 0 < h.qty) :
    ∀ x ∈ decStep l f c q, 0 < x.qty ∨ (keyP f c x = true ∧ 0 ≤ x.qty) := by
  intro x hx
  rcases List.mem_map.1 hx with ⟨y, hy, rfl⟩
  unfold decFun
  by_cases hcond : (keyP f c y && decide (q ≤ y.qty)) = true
  · rw [if_pos hcond]
    have hcond' : keyP f c y = true ∧ q ≤ y.qty := by simpa using hcond
    right
    refine ⟨hcond'.1, ?_⟩
    have hle' : q ≤ y.qty := hcond'.2
    show 0 ≤ y.qty - q
    omega
  · rw [if_neg hcond]
    left
    exact hpos y hy

/-- `transfer_card` of a positive quantity keeps every stored holding positive:
a sender holding that reaches 0 is deleted, never retained. -/
theorem pos_transfer_card (db : DB) (f t : Nat) (c : String) (q : Int)
    (hqpos : 0 < q) (hpos : ∀ h ∈ db.user_cards, 0 < h.qty) :
    ∀ x ∈ (transfer_card db f t c q).user_cards, 0 < x.qty := by
  have hdel : ∀ x ∈ delStep (decStep db.user_cards f c q) f c, 0 < x.qty := by
    intro x hx
    have hx1 : x ∈ decStep db.user_cards f c q := List.mem_of_mem_filter hx
    rcases pos_decStep _ _ _ _ hpos x hx1 with h | ⟨hk, hge⟩
    · exact h
    · have hkeep := List.of_mem_filter hx
      rw [hk] at hkeep
      simp at hkeep
      omega
  intro x hx
  have hx' : x ∈ incStep (delStep (decStep db.user_cards f c q) f c) t c q := hx
  unfold incStep at hx'
  by_cases hany : (delStep (decStep db.user_cards f c q) f c).any (keyP t c) = true
  · rw [if_pos hany] at hx'
    rcases List.mem_map.1 hx' with ⟨y, hy, rfl⟩
    unfold incFun
    split
    · have := hdel y hy
      show 0 < y.qty + q
      omega
    · exact hdel y hy
  · rw [if_neg hany] at hx'
    rcases List.mem_append.1 hx' with h | h
    · exact hdel x h
    · rcases List.mem_singleton.1 h with rfl
      simpa using hqpos

theorem findRow_none_of_qtyOf_zero (l : List HoldingRow)
    (hpos : ∀ h ∈ l, 0 < h.qty) (u : Nat) (c : String)
    (hz : qtyOf l u c = 0) : findRow l u c = none := by
  cases hr : findRow l u c with
  | none => rfl
  | some x =>
    have hx := hpos x (List.mem_of_find?_eq_some hr)
    rw [qtyOf_some _ _ _ _ hr] at hz
    omega

/-- Effect of the unconditional status UPDATE on the looked-up trade row. -/
theorem get_trade_set_status (db : DB) (tid : Nat) (s : String) (t : TradeRow)
    (ht : get_trade db tid = some t) :
    get_trade (set_trade_status db tid s) tid =
      some ⟨t.trade_id, t.from_user, t.to_user, t.from_card_id, t.to_card_id,
        t.qty_from, t.qty_to, s, t.created_ts⟩ := by
  unfold get_trade set_trade_status
  have ht' : db.trades.find? (fun tr => tr.trade_id == tid) = some t := ht
  rw [find?_map_pred]
  · rw [ht', Option.map_some']
    have hk : (t.trade_id == tid) = true := by
      have h2 := List.find?_some ht'
      exact h2
    rw [hk]
    simp
  · intro a
    by_cases hk : (a.trade_id == tid) = true
    · rw [hk]
      simp [hk]
    · simp at hk
      simp [hk]

/-! ### Users-table lemmas -/

theorem findUser_upsert_self (l : List UserRow) (v : Nat) (g : UserRow → UserRow)
    (new : UserRow) (hg : ∀ r, (g r).user_id = r.user_id) (hnew : new.user_id = v) :
    findUser (upsert l v g new) v =
      match findUser l v with
      | some r => some (g r)
      | none => some new := by
  unfold upsert findUser
  by_cases hany : l.any (fun r => r.user_id == v) = true
  · rw [if_pos hany]
    have hg' : ∀ r, (((if r.user_id == v then g r else r).user_id == v)) = ((r.user_id == v)) := by
      intro r
      split
      · rw [hg]
      · rfl
    rw [find?_map_pred _ _ _ hg']
    obtain ⟨r0, hr0⟩ := Option.isSome_iff_exists.1 (List.find?_isSome.2 (List.any_eq_true.1 hany))
    rw [hr0, Option.map_some']
    have hk : (r0.user_id == v) = true := by
      have h2 := List.find?_some hr0
      exact h2
    rw [if_pos hk]
  · rw [if_neg hany]
    have hanyf : l.any (fun r => r.user_id == v) = false := by
      rcases Bool.eq_false_or_eq_true (l.any fun r => r.user_id == v) with h | h
      · exact absurd h hany
      · exact h
    have hnone := find?_none_of_any_false l _ hanyf
    rw [find?_append_right _ _ _ hnone, hnone]
    show List.find? (fun r => r.user_id == v) (new :: []) = some new
    apply List.find?_cons_of_pos
    simp [hnew]

theorem findUser_upsert_other (l : List UserRow) (v : Nat) (g : UserRow → UserRow)
    (new : UserRow) (hg : ∀ r, (g r).user_id = r.user_id) (hnew : new.user_id = v)
    (u : Nat) (hu : u ≠ v) :
    findUser (upsert l v g new) u = findUser l u := by
  unfold upsert findUser
  by_cases hany : l.any (fun r => r.user_id == v) = true
  · rw [if_pos hany]
    have hg' : ∀ r, (((if r.user_id == v then g r else r).user_id == u)) = ((r.user_id == u)) := by
      intro r
      split
      · rw [hg]
      · rfl
    rw [find?_map_pred _ _ _ hg']
    cases hr : l.find? (fun r => r.user_id == u) with
    | none => rfl
    | some r =>
      have hru : r.user_id = u := by
        have h2 := List.find?_some hr
        simpa using h2
      have hrv : ¬ ((r.user_id == v) = true) := by
        rw [hru]
        simp [hu]
      rw [Option.map_some', if_neg hrv]
  · rw [if_neg hany]
    cases hr : l.find? (fun r => r.user_id == u) with
    | none =>
      rw [find?_append_right _ _ _ hr]
      have hnu : ¬ ((new.user_id == u) = true) := by
        rw [hnew]
        simp
        exact fun h => hu h.symm
      rw [List.find?_eq_none]
      intro x hx
      rcases List.mem_singleton.1 hx with rfl
      exact hnu
    | some r => rw [find?_append_left _ _ _ _ hr]

theorem get_coins_some (db : DB) (u : Nat) (r : UserRow)
    (hr : findUser db.users u = some r) : get_coins db u = r.coins := by
  unfold get_coins
  rw [hr]

theorem get_coins_none (db : DB) (u : Nat)
    (hr : findUser db.users u = none) : get_coins db u = 0 := by
  unfold get_coins
  rw [hr]

theorem get_coins_add_coins (db : DB) (v : Nat) (a : Int) (u : Nat) :
    get_coins (add_coins db v a) u = get_coins db u + (if u = v then a else 0) := by
  unfold get_coins
  by_cases hu : u = v
  · subst hu
    have h1 : findUser (add_coins db u a).users u =
        match findUser db.users u with
        | some r => some ⟨r.user_id, r.last_pull_ts, r.coins + a⟩
        | none => some ⟨u, 0, a⟩ :=
      findUser_upsert_self db.users u (fun r => ⟨r.user_id, r.last_pull_ts, r.coins + a⟩)
        ⟨u, 0, a⟩ (fun r => rfl) rfl
    rw [h1, if_pos rfl]
    cases hr : findUser db.users u with
    | none => show a = 0 + a; omega
    | some r => rfl
  · have h1 : findUser (add_coins db v a).users u = findUser db.users u :=
      findUser_upsert_other db.users v (fun r => ⟨r.user_id, r.last_pull_ts, r.coins + a⟩)
        ⟨v, 0, a⟩ (fun r => rfl) rfl u hu
    rw [h1, if_neg hu, add_zero]

theorem get_coins_set_coins (db : DB) (v : Nat) (x : Int) (u : Nat) :
    get_coins (set_coins db v x) u = if u = v then x else get_coins db u := by
  unfold get_coins
  by_cases hu : u = v
  · subst hu
    have h1 : findUser (set_coins db u x).users u =
        match findUser db.users u with
        | some r => some ⟨r.user_id, r.last_pull_ts, x⟩
        | none => some ⟨u, 0, x⟩ :=
      findUser_upsert_self db.users u (fun r => ⟨r.user_id, r.last_pull_ts, x⟩)
        ⟨u, 0, x⟩ (fun r => rfl) rfl
    rw [h1, if_pos rfl]
    cases hr : findUser db.users u with
    | none => rfl
    | some r => rfl
  · have h1 : findUser (set_coins db v x).users u = findUser db.users u :=
      findUser_upsert_other db.users v (fun r => ⟨r.user_id, r.last_pull_ts, x⟩)
        ⟨v, 0, x⟩ (fun r => rfl) rfl u hu
    rw [h1, if_neg hu]

theorem get_coins_mark_pulled (db : DB) (v : Nat) (now : Int) (u : Nat) :
    get_coins (mark_pulled db v now) u = get_coins db u := by
  unfold get_coins
  by_cases hu : u = v
  · subst hu
    have h1 : findUser (mark_pulled db u now).users u =
        match findUser db.users u with
        | some r => some ⟨r.user_id, now, r.coins⟩
        | none => some ⟨u, now, 0⟩ :=
      findUser_upsert_self db.users u (fun r => ⟨r.user_id, now, r.coins⟩)
        ⟨u, now, 0⟩ (fun r => rfl) rfl
    rw [h1]
    cases hr : findUser db.users u with
    | none => rfl
    | some r => rfl
  · have h1 : findUser (mark_pulled db v now).users u = findUser db.users u :=
      findUser_upsert_other db.users v (fun r => ⟨r.user_id, now, r.coins⟩)
        ⟨v, now, 0⟩ (fun r => rfl) rfl u hu
    rw [h1]

theorem lastPullTs_mark_pulled_self (db : DB) (u : Nat) (now : Int) :
    lastPullTs (mark_pulled db u now) u = now := by
  unfold lastPullTs
  have h1 : findUser (mark_pulled db u now).users u =
      match findUser db.users u with
      | some r => some ⟨r.user_id, now, r.coins⟩
      | none => some ⟨u, now, 0⟩ :=
    findUser_upsert_self db.users u (fun r => ⟨r.user_id, now, r.coins⟩)
      ⟨u, now, 0⟩ (fun r => rfl) rfl
  rw [h1]
  cases hr : findUser db.users u with
  | none => rfl
  | some r => rfl

theorem lastPullTs_add_coins (db : DB) (v : Nat) (a : Int) (u : Nat) :
    lastPullTs (add_coins db v a) u = lastPullTs db u := by
  unfold lastPullTs
  by_cases hu : u = v
  · subst hu
    have h1 : findUser (add_coins db u a).users u =
        match findUser db.users u with
        | some r => some ⟨r.user_id, r.last_pull_ts, r.coins + a⟩
        | none => some ⟨u, 0, a⟩ :=
      findUser_upsert_self db.users u (fun r => ⟨r.user_id, r.last_pull_ts, r.coins + a⟩)
        ⟨u, 0, a⟩ (fun r => rfl) rfl
    rw [h1]
    cases hr : findUser db.users u with
    | none => rfl
    | some r => rfl
  · have h1 : findUser (add_coins db v a).users u = findUser db.users u :=
      findUser_upsert_other db.users v (fun r => ⟨r.user_id, r.last_pull_ts, r.coins + a⟩)
        ⟨v, 0, a⟩ (fun r => rfl) rfl u hu
    rw [h1]

theorem get_coins_deduct10 (db : DB) (v u : Nat) :
    get_coins (deduct10 db v) u =
      if u = v ∧ 10 ≤ get_coins db u then get_coins db u - 10 else get_coins db u := by
  have hpres : ∀ r : UserRow,
      (((if r.user_id == v && decide (10 ≤ r.coins) then
          (⟨r.user_id, r.last_pull_ts, r.coins - 10⟩ : UserRow) else r).user_id == u)) =
        ((r.user_id == u)) := by
    intro r
    split <;> rfl
  have hfind : findUser (deduct10 db v).users u =
      (findUser db.users u).map (fun r =>
        if r.user_id == v && decide (10 ≤ r.coins) then
          ⟨r.user_id, r.last_pull_ts, r.coins - 10⟩ else r) :=
    find?_map_pred _ _ db.users hpres
  cases hr : findUser db.users u with
  | none =>
    rw [hr, Option.map_none'] at hfind
    rw [get_coins_none _ _ hfind, get_coins_none db u hr]
    rw [if_neg (by omega)]
  | some r =>
    rw [hr, Option.map_some'] at hfind
    have hru : r.user_id = u := by
      have h2 := List.find?_some hr
      simpa using h2
    have hcv : get_coins db u = r.coins := get_coins_some db u r hr
    rw [hcv]
    by_cases hcond : u = v ∧ 10 ≤ r.coins
    · have hbc : (r.user_id == v && decide (10 ≤ r.coins)) = true := by
        rw [hru]
        simp only [Bool.and_eq_true, beq_iff_eq, decide_eq_true_eq]
        exact ⟨hcond.1, hcond.2⟩
      rw [if_pos hbc] at hfind
      rw [get_coins_some _ _ _ hfind, if_pos hcond]
    · have hbc : ¬ ((r.user_id == v && decide (10 ≤ r.coins)) = true) := by
        rw [hru]
        simp only [Bool.and_eq_true, beq_iff_eq, decide_eq_true_eq]
        exact hcond
      rw [if_neg hbc] at hfind
      rw [get_coins_some _ _ _ hfind, if_neg hcond]

/-! ### Claims about the trade protocol -/

/-- Example store for C1: one trade already in the terminal status 'done'. -/
def c1db : DB := ⟨[], [], [], [⟨1, 10, 20, "A", "B", 1, 1, "done", 0⟩], 2⟩

/-- C1 counterexample: pressing cancel on a trade whose status is 'done'
succeeds and rewrites the status to 'cancelled', so Cancel does not fail on a
terminal trade and the trade does leave the Done state. -/
theorem cancel_done_counterexample :
    (get_trade c1db 1).map TradeRow.status = some "done" ∧
    (cancel_btn c1db 1 10).1 = CancelResult.cancelled ∧
    (get_trade (cancel_btn c1db 1 10).2 1).map TradeRow.status = some "cancelled" := by
  decide

/-- C1 (amended): Cancel invoked by the proposer or the counterparty succeeds
from any status, unconditionally setting the trade's status to Cancelled while
touching no holdings and no balances (hence Done → Cancelled is reachable, and
a Cancelled trade stays Cancelled); Accept on a trade whose status is not
Pending leaves the store unchanged and never settles, so no trade leaves the
Cancelled state. -/
theorem cancel_ignores_status (db : DB) (tid actor : Nat) (t : TradeRow)
    (ht : get_trade db tid = some t)
    (hactor : actor = t.from_user ∨ actor = t.to_user) :
    (cancel_btn db tid actor).1 = CancelResult.cancelled ∧
    (cancel_btn db tid actor).2.user_cards = db.user_cards ∧
    (cancel_btn db tid actor).2.users = db.users ∧
    get_trade (cancel_btn db tid actor).2 tid =
      some ⟨t.trade_id, t.from_user, t.to_user, t.from_card_id, t.to_card_id,
        t.qty_from, t.qty_to, "cancelled", t.created_ts⟩ ∧
    (t.status ≠ "pending" →
      (accept_btn db tid actor).2 = db ∧ (accept_btn db tid actor).1 ≠ AcceptResult.settled) := by
  have hred : cancel_btn db tid actor =
      (CancelResult.cancelled, set_trade_status db tid "cancelled") := by
    simp only [cancel_btn, ht]
    rw [if_neg (not_not_intro hactor)]
  refine ⟨by rw [hred], by rw [hred]; rfl, by rw [hred]; rfl, ?_, ?_⟩
  · rw [hred]
    exact get_trade_set_status db tid "cancelled" t ht
  · intro hstat
    have hred2 : accept_btn db tid actor = (AcceptResult.wrongActor, db) ∨
        accept_btn db tid actor = (AcceptResult.notPending, db) := by
      by_cases hA : actor = t.to_user
      · right
        simp only [accept_btn, ht]
        rw [if_neg (not_not_intro hA), if_pos hstat]
      · left
        simp only [accept_btn, ht]
        rw [if_pos hA]
    rcases hred2 with h | h
    · rw [h]
      exact ⟨rfl, fun hc => AcceptResult.noConfusion hc⟩
    · rw [h]
      exact ⟨rfl, fun hc => AcceptResult.noConfusion hc⟩

/-- C1 witness: the amended theorem applied to the concrete Done trade. -/
theorem cancel_ignores_status_witness :
    get_trade c1db 1 = some ⟨1, 10, 20, "A", "B", 1, 1, "done", 0⟩ ∧
    ((10 : Nat) = 10 ∨ (10 : Nat) = 20) ∧
    (cancel_btn c1db 1 10).1 = CancelResult.cancelled :=
  ⟨by decide, Or.inl rfl,
    (cancel_ignores_status c1db 1 10 ⟨1, 10, 20, "A", "B", 1, 1, "done", 0⟩
      (by decide) (Or.inl (by decide))).1⟩

/-- C2: accepting a Pending trade as the counterparty with both re-checked
holdings sufficient settles it: the result is success, the trade row's status
becomes 'done', every holding changes by exactly the four transfer legs (a
formulation that is also correct when the offered and requested items
coincide), and, assuming the stored-holdings-positive invariant, no zero or
negative holding row survives, i.e. a holding reaching zero is removed. -/
theorem accept_settles (db : DB) (tid actor : Nat) (t : TradeRow)
    (hnd : keysNodup db.user_cards)
    (ht : get_trade db tid = some t)
    (hstat : t.status = "pending")
    (hactor : actor = t.to_user)
    (hq1 : user_has_card_qty db t.from_user t.from_card_id t.qty_from = true)
    (hq2 : user_has_card_qty db t.to_user t.to_card_id t.qty_to = true)
    (hp1 : 0 < t.qty_from) (hp2 : 0 < t.qty_to)
    (hne : t.from_user ≠ t.to_user) :
    (accept_btn db tid actor).1 = AcceptResult.settled ∧
    get_trade (accept_btn db tid actor).2 tid =
      some ⟨t.trade_id, t.from_user, t.to_user, t.from_card_id, t.to_card_id,
        t.qty_from, t.qty_to, "done", t.created_ts⟩ ∧
    (∀ u c, qtyOf (accept_btn db tid actor).2.user_cards u c =
      qtyOf db.user_cards u c
        + (if u = t.from_user ∧ c = t.from_card_id then -t.qty_from else 0)
        + (if u = t.to_user ∧ c = t.from_card_id then t.qty_from else 0)
        + (if u = t.to_user ∧ c = t.to_card_id then -t.qty_to else 0)
        + (if u = t.from_user ∧ c = t.to_card_id then t.qty_to else 0)) ∧
    ((∀ h ∈ db.user_cards, 0 < h.qty) →
      (∀ h ∈ (accept_btn db tid actor).2.user_cards, 0 < h.qty) ∧
      (∀ u c, qtyOf (accept_btn db tid actor).2.user_cards u c = 0 →
        findRow (accept_btn db tid actor).2.user_cards u c = none)) := by
  have hred : accept_btn db tid actor =
      (AcceptResult.settled,
        set_trade_status
          (transfer_card (transfer_card db t.from_user t.to_user t.from_card_id t.qty_from)
            t.to_user t.from_user t.to_card_id t.qty_to) tid "done") := by
    simp only [accept_btn, ht, hactor, hstat, hq1, hq2]
    simp
  obtain ⟨g0, hgfind, hgle⟩ :=
    (user_has_card_qty_iff db t.from_user t.from_card_id t.qty_from).1 hq1
  obtain ⟨g1, hgfind1, hgle1⟩ :=
    (user_has_card_qty_iff db t.to_user t.to_card_id t.qty_to).1 hq2
  have hstep1 := fun (u : Nat) (c : String) =>
    qtyOf_transfer_card db t.from_user t.to_user t.from_card_id t.qty_from hnd g0 hgfind hgle
      hne u c
  have hnd1 : keysNodup
      (transfer_card db t.from_user t.to_user t.from_card_id t.qty_from).user_cards :=
    keysNodup_transfer_card db _ _ _ _ hnd
  have hv : t.qty_to ≤
      qtyOf (transfer_card db t.from_user t.to_user t.from_card_id
        t.qty_from).user_cards t.to_user t.to_card_id := by
    rw [hstep1 t.to_user t.to_card_id, qtyOf_some _ _ _ _ hgfind1]
    split_ifs with hx hy
    all_goals omega
  have hq2' : user_has_card_qty
      (transfer_card db t.from_user t.to_user t.from_card_id t.qty_from)
      t.to_user t.to_card_id t.qty_to = true :=
    user_has_card_qty_of_le _ _ _ _ hp2 hv
  obtain ⟨g2, hgfind2, hgle2⟩ := (user_has_card_qty_iff _ _ _ _).1 hq2'
  have hstep2 := fun (u : Nat) (c : String) =>
    qtyOf_transfer_card (transfer_card db t.from_user t.to_user t.from_card_id t.qty_from)
      t.to_user t.from_user t.to_card_id t.qty_to hnd1 g2 hgfind2 hgle2
      (fun h => hne h.symm) u c
  refine ⟨by rw [hred], ?_, ?_, ?_⟩
  · rw [hred]
    exact get_trade_set_status _ tid "done" t ht
  · intro u c
    rw [hred]
    show qtyOf (transfer_card (transfer_card db t.from_user t.to_user t.from_card_id
      t.qty_from) t.to_user t.from_user t.to_card_id t.qty_to).user_cards u c = _
    rw [hstep2 u c, hstep1 u c]
  · intro hpos
    have pos1 : ∀ x ∈ (transfer_card db t.from_user t.to_user t.from_card_id
        t.qty_from).user_cards, 0 < x.qty :=
      pos_transfer_card db _ _ _ _ hp1 hpos
    have pos2 : ∀ x ∈ (transfer_card (transfer_card db t.from_user t.to_user t.from_card_id
        t.qty_from) t.to_user t.from_user t.to_card_id t.qty_to).user_cards, 0 < x.qty :=
      pos_transfer_card _ _ _ _ _ hp2 pos1
    rw [hred]
    exact ⟨pos2, fun u c hz => findRow_none_of_qtyOf_zero _ pos2 u c hz⟩

/-- Example store for C2: proposer 1 holds 2 of "A", counterparty 2 holds 1 of
"B", and trade 1 offers 1 "A" for 1 "B". -/
def c2db : DB :=
  ⟨[], [], [⟨1, "A", 2⟩, ⟨2, "B", 1⟩], [⟨1, 1, 2, "A", "B", 1, 1, "pending", 0⟩], 2⟩

/-- The pending trade row of the C2 example store. -/
def c2trade : TradeRow := ⟨1, 1, 2, "A", "B", 1, 1, "pending", 0⟩

/-- C2 witness: the settlement theorem applied to the concrete pending trade. -/
theorem accept_settles_witness :
    keysNodup c2db.user_cards ∧
    get_trade c2db 1 = some c2trade ∧
    c2trade.status = "pending" ∧
    (2 : Nat) = c2trade.to_user ∧
    user_has_card_qty c2db c2trade.from_user c2trade.from_card_id c2trade.qty_from = true ∧
    user_has_card_qty c2db c2trade.to_user c2trade.to_card_id c2trade.qty_to = true ∧
    0 < c2trade.qty_from ∧ 0 < c2trade.qty_to ∧ c2trade.from_user ≠ c2trade.to_user ∧
    (accept_btn c2db 1 2).1 = AcceptResult.settled :=
  ⟨by decide, by decide, by decide, by decide, by decide, by decide, by decide, by decide,
    by decide,
    (accept_settles c2db 1 2 c2trade (by decide) (by decide) (by decide) (by decide) (by decide)
      (by decide) (by decide) (by decide) (by decide)).1⟩

/-- Example store for C5: proposer 1 holds 1 of "A", counterparty 2 holds 1 of
"B"; the proposal offers 0 of "A" for 0 of "B". -/
def c5db : DB := ⟨[], [], [⟨1, "A", 1⟩, ⟨2, "B", 1⟩], [], 1⟩

/-- C5 counterexample: a proposal with zero offered and zero requested quantity
is not rejected; a Trade record with those non-positive quantities is created. -/
theorem propose_zero_qty_counterexample :
    (trade_start c5db 1 2 "A" "B" 0 0 0).1 = TradeStartResult.created 1 ∧
    (trade_start c5db 1 2 "A" "B" 0 0 0).2.trades =
      [⟨1, 1, 2, "A", "B", 0, 0, "pending", 0⟩] := by
  decide

/-- C5 (amended): Propose performs no non-positivity validation.  Whenever the
parties are distinct and both advisory ownership checks pass — which any
existing (positive) holding does for a non-positive requested quantity — a
Pending Trade record carrying the given (possibly zero or negative) quantities
is created; holdings themselves are untouched by Propose. -/
theorem trade_start_no_qty_validation (db : DB) (p cp : Nat) (cf ct : String)
    (qf qt : Int) (now : Int)
    (hne : p ≠ cp)
    (h1 : user_has_card_qty db p cf qf = true)
    (h2 : user_has_card_qty db cp ct qt = true)
    (hpos : ∀ h ∈ db.user_cards, 0 < h.qty) :
    (trade_start db p cp cf ct qf qt now).1 = TradeStartResult.created db.next_trade_id ∧
    (trade_start db p cp cf ct qf qt now).2.trades =
      db.trades ++ [⟨db.next_trade_id, p, cp, cf, ct, qf, qt, "pending", now⟩] ∧
    (trade_start db p cp cf ct qf qt now).2.user_cards = db.user_cards ∧
    (∀ q : Int, q ≤ 0 →
      (user_has_card_qty db p cf q = true ↔ (findRow db.user_cards p cf).isSome)) := by
  have hbeq : (p == cp) = false := by
    rw [beq_eq_false_iff_ne]
    exact hne
  have hred : trade_start db p cp cf ct qf qt now =
      (TradeStartResult.created db.next_trade_id,
        { db with
          trades := db.trades ++ [⟨db.next_trade_id, p, cp, cf, ct, qf, qt, "pending", now⟩],
          next_trade_id := db.next_trade_id + 1 }) := by
    simp only [trade_start, hbeq, h1, h2]
    simp
  refine ⟨by rw [hred], by rw [hred], by rw [hred], ?_⟩
  intro q hq
  unfold user_has_card_qty
  cases hr : findRow db.user_cards p cf with
  | none => simp
  | some x =>
    have hx := hpos x (List.mem_of_find?_eq_some hr)
    simp only [Option.isSome_some, decide_eq_true_eq, iff_true]
    omega

/-- C5 witness: the amended theorem applied to the concrete zero-quantity
proposal. -/
theorem trade_start_no_qty_validation_witness :
    (1 : Nat) ≠ 2 ∧
    user_has_card_qty c5db 1 "A" 0 = true ∧
    user_has_card_qty c5db 2 "B" 0 = true ∧
    (∀ h ∈ c5db.user_cards, 0 < h.qty) ∧
    (trade_start c5db 1 2 "A" "B" 0 0 5).1 = TradeStartResult.created 1 :=
  ⟨by decide, by decide, by decide, by decide,
    (trade_start_no_qty_validation c5db 1 2 "A" "B" 0 0 5 (by decide) (by decide) (by decide)
      (by decide)).1⟩

/-! ### Claims about the currency ledger and the acquisition engine -/

theorem coin_step_nonneg (db : DB) (op : CoinOp) (hinv : ∀ w, 0 ≤ get_coins db w) (u : Nat) :
    0 ≤ get_coins (applyCoinOp db op) u := by
  cases op with
  | grant v a =>
    simp only [applyCoinOp]
    split_ifs with h1 h2
    · exact hinv u
    · exact hinv u
    · rw [get_coins_add_coins]
      have h3 := hinv u
      split_ifs with h4
      · omega
      · omega
  | spend v =>
    simp only [applyCoinOp]
    split_ifs with h1
    · exact hinv u
    · rw [get_coins_deduct10]
      have h3 := hinv u
      split_ifs with h4
      · omega
      · omega
  | setExact v x =>
    simp only [applyCoinOp]
    split_ifs with h1
    · exact hinv u
    · rw [get_coins_set_coins]
      have h3 := hinv u
      split_ifs with h4
      · omega
      · omega

/-- C6: starting from the fresh store, any sequence of Grant (validated to be
positive by /coins_add), Spend (the /shop price check plus conditional 10-coin
decrement) and SetExact (validated non-negative by /coins_set) operations keeps
every balance non-negative; moreover Spend decrements the balance by 10 exactly
when the current balance is at least 10, and leaves it unchanged otherwise. -/
theorem coin_ledger_nonneg :
    (∀ (ops : List CoinOp) (u : Nat), 0 ≤ get_coins (runCoinOps ops) u) ∧
    (∀ (db : DB) (u : Nat),
      get_coins (applyCoinOp db (CoinOp.spend u)) u =
        if 10 ≤ get_coins db u then get_coins db u - 10 else get_coins db u) := by
  constructor
  · have main : ∀ (ops : List CoinOp) (db : DB), (∀ w, 0 ≤ get_coins db w) →
        ∀ u, 0 ≤ get_coins (ops.foldl applyCoinOp db) u := by
      intro ops
      induction ops with
      | nil => exact fun db h u => h u
      | cons op rest ih =>
        intro db h u
        exact ih (applyCoinOp db op) (coin_step_nonneg db op h) u
    exact fun ops u => main ops freshDB (fun w => le_refl 0) u
  · intro db u
    simp only [applyCoinOp]
    by_cases h1 : get_coins db u < 10
    · rw [if_pos h1, if_neg (by omega)]
    · rw [if_neg h1, get_coins_deduct10, if_pos ⟨rfl, by omega⟩, if_pos (by omega)]

/-- C9: when the cooldown has elapsed but the catalog holds no card of the
drawn rarity, the pull fails with the empty-pool outcome and the whole store —
holdings, balances and last-pull timestamps included — is unchanged, so the
cooldown is not consumed. -/
theorem daily_card_empty_pool (db : DB) (u : Nat) (now : Int) (r : String) (i : Nat)
    (hleft : ¬ 0 < get_time_left db u now)
    (hempty : db.cards.filter (fun cd => cd.rarity == r) = []) :
    daily_card db u now r i = (PullResult.emptyPool, db) := by
  have hpick : pick_random_card_for_rarity db r i = none := by
    simp only [pick_random_card_for_rarity, hempty]
    simp
  simp only [daily_card, hpick]
  rw [if_neg hleft]

/-- Example store for C9: user 1 pulled at time 0, clock at 20,000 (cooldown
over), and an empty catalog. -/
def c9db : DB := ⟨[], [⟨1, 0, 0⟩], [], [], 1⟩

/-- C9 witness: the empty-pool theorem applied to the concrete store. -/
theorem daily_card_empty_pool_witness :
    (¬ 0 < get_time_left c9db 1 20000) ∧
    c9db.cards.filter (fun cd => cd.rarity == "Common") = [] ∧
    daily_card c9db 1 20000 "Common" 0 = (PullResult.emptyPool, c9db) :=
  ⟨by decide, by decide,
    daily_card_empty_pool c9db 1 20000 "Common" 0 (by decide) (by decide)⟩

/-- C3 (code bug): when the buyer can afford the 10-coin price but the catalog
holds no card of the drawn rarity, /shop still commits the 10-coin deduction
before the draw and does not refund it on the EmptyPoolError path: the balance
after the failed purchase is 10 lower than before, contradicting the claim that
no state change is committed. -/
theorem shop_empty_pool_charges (db : DB) (u : Nat) (r : String) (i : Nat)
    (hcoins : 10 ≤ get_coins db u)
    (hempty : db.cards.filter (fun cd => cd.rarity == r) = []) :
    (shop db u r i).1 = ShopResult.emptyPool ∧
    get_coins (shop db u r i).2 u = get_coins db u - 10 := by
  have hpick : pick_random_card_for_rarity (deduct10 db u) r i = none := by
    have hc : (deduct10 db u).cards = db.cards := rfl
    simp only [pick_random_card_for_rarity, hc, hempty]
    simp
  have hred : shop db u r i = (ShopResult.emptyPool, deduct10 db u) := by
    simp only [shop, hpick]
    rw [if_neg (by omega)]
  rw [hred]
  exact ⟨rfl, by rw [get_coins_deduct10, if_pos ⟨rfl, hcoins⟩]⟩

/-- Example store for C3: account 1 holds exactly the 10-coin price and the
catalog is empty. -/
def c3db : DB := ⟨[], [⟨1, 0, 10⟩], [], [], 1⟩

/-- C3 witness: the failed purchase leaves account 1 with 0 coins, not 10. -/
theorem shop_empty_pool_charges_witness :
    10 ≤ get_coins c3db 1 ∧
    c3db.cards.filter (fun cd => cd.rarity == "Common") = [] ∧
    get_coins (shop c3db 1 "Common" 0).2 1 = 0 :=
  ⟨by decide, by decide, by
    have h := shop_empty_pool_charges c3db 1 "Common" 0 (by decide) (by decide)
    rw [h.2]
    decide⟩

/-- C4 (code bug): on the cooldown-gated pull, drawing a card the account
already holds reports a duplicate but credits the literal 2 coins of
src/bot.py line 432, not the DuplicateReward constant 5 that the claim (and the
handler's own "+5 Coins für Duplikat" footer of line 456) states. -/
theorem daily_card_duplicate_grants_two (db : DB) (u : Nat) (now : Int) (r : String)
    (i : Nat) (card : Card)
    (hleft : ¬ 0 < get_time_left db u now)
    (hpick : pick_random_card_for_rarity db r i = some card)
    (hdup : (findRow db.user_cards u card.id).isSome = true) :
    (daily_card db u now r i).1 = PullResult.pulled card true ∧
    get_coins (daily_card db u now r i).2 u = get_coins db u + 2 ∧
    (2 : Int) ≠ DUPLICATE_COINS := by
  have hred : daily_card db u now r i =
      (PullResult.pulled card true,
        add_coins (mark_pulled (add_to_inventory db u card.id).2 u now) u 2) := by
    simp only [daily_card, hpick]
    rw [if_neg hleft]
    rw [show (add_to_inventory db u card.id).1 = true from hdup]
    simp
  rw [hred]
  refine ⟨rfl, ?_, by decide⟩
  rw [get_coins_add_coins, if_pos rfl, get_coins_mark_pulled]
  rfl

/-- Catalog card used by the C4 example store. -/
def c4card : Card := ⟨"A", "CardA", "Common", "", none, none, none, none⟩

/-- Example store for C4: user 1 already holds card "A", the cooldown has
elapsed, and the draw returns card "A" again. -/
def c4db : DB := ⟨[c4card], [⟨1, 0, 0⟩], [⟨1, "A", 1⟩], [], 1⟩

/-- C4 witness: the duplicate pull leaves account 1 with 2 coins, not 5. -/
theorem daily_card_duplicate_grants_two_witness :
    (¬ 0 < get_time_left c4db 1 20000) ∧
    pick_random_card_for_rarity c4db "Common" 0 = some c4card ∧
    (findRow c4db.user_cards 1 c4card.id).isSome = true ∧
    get_coins (daily_card c4db 1 20000 "Common" 0).2 1 = 2 :=
  ⟨by decide, by decide, by decide, by
    have h := daily_card_duplicate_grants_two c4db 1 20000 "Common" 0 c4card
      (by decide) (by decide) (by decide)
    rw [h.2.1]
    decide⟩

/-- C7: with a clock not earlier than the stored timestamp, the pull is blocked
exactly when now − lastPull < PULL_COOLDOWN_SECONDS; on that path the reported
remaining time is PULL_COOLDOWN_SECONDS − (now − lastPull) and the store is
unchanged; after a successful pull the remaining time read at the same instant
equals PULL_COOLDOWN_SECONDS, and once PULL_COOLDOWN_SECONDS seconds have
elapsed the remaining time is 0, so the cooldown no longer blocks. -/
theorem cooldown_correctness (db : DB) (u : Nat) (now : Int)
    (hlast : lastPullTs db u ≤ now) :
    (0 < get_time_left db u now ↔ now - lastPullTs db u < PULL_COOLDOWN_SECONDS) ∧
    (now - lastPullTs db u < PULL_COOLDOWN_SECONDS →
      ∀ r i, daily_card db u now r i =
        (PullResult.cooldown (PULL_COOLDOWN_SECONDS - (now - lastPullTs db u)), db)) ∧
    (∀ r i card, pick_random_card_for_rarity db r i = some card →
      ¬ now - lastPullTs db u < PULL_COOLDOWN_SECONDS →
      get_time_left (daily_card db u now r i).2 u now = PULL_COOLDOWN_SECONDS ∧
      ∀ now2, now + PULL_COOLDOWN_SECONDS ≤ now2 →
        get_time_left (daily_card db u now r i).2 u now2 = 0) := by
  have hmax : max 0 (now - lastPullTs db u) = now - lastPullTs db u := max_eq_right (by omega)
  have ha : 0 < get_time_left db u now ↔ now - lastPullTs db u < PULL_COOLDOWN_SECONDS := by
    unfold get_time_left
    rw [hmax, lt_max_iff]
    omega
  refine ⟨ha, ?_, ?_⟩
  · intro hcool r i
    have hleft : get_time_left db u now =
        PULL_COOLDOWN_SECONDS - (now - lastPullTs db u) := by
      unfold get_time_left
      rw [hmax]
      exact max_eq_right (by omega)
    simp only [daily_card]
    rw [hleft, if_pos (by omega)]
  · intro r i card hpick hncool
    have hleft0 : ¬ 0 < get_time_left db u now := fun h => hncool (ha.1 h)
    have hdc : (daily_card db u now r i).2 =
        (if (add_to_inventory db u card.id).1 then
          add_coins (mark_pulled (add_to_inventory db u card.id).2 u now) u 2
        else mark_pulled (add_to_inventory db u card.id).2 u now) := by
      simp only [daily_card, hpick]
      rw [if_neg hleft0]
    have hCpos : (0 : Int) < PULL_COOLDOWN_SECONDS := by decide
    have hlp : lastPullTs (daily_card db u now r i).2 u = now := by
      rw [hdc]
      split_ifs
      · rw [lastPullTs_add_coins]
        exact lastPullTs_mark_pulled_self _ _ _
      · exact lastPullTs_mark_pulled_self _ _ _
    constructor
    · unfold get_time_left
      rw [hlp]
      have h1 : now - now = 0 := by omega
      rw [h1, max_self, sub_zero]
      exact max_eq_right (by omega)
    · intro now2 h2
      unfold get_time_left
      rw [hlp]
      rw [max_eq_right (show (0 : Int) ≤ now2 - now by omega)]
      exact max_eq_left (by omega)

/-- Example store for C7: user 1 pulled at time 0 and the catalog holds one
Common card; at time 20,000 the cooldown (18,000 s) has elapsed. -/
def c7db : DB := ⟨[⟨"A", "CardA", "Common", "", none, none, none, none⟩], [⟨1, 0, 0⟩], [], [], 1⟩

/-- C7 witness: the cooldown theorem applied to the concrete store, both at a
blocked instant (time 10,000) and after a successful pull at time 20,000. -/
theorem cooldown_correctness_witness :
    lastPullTs c7db 1 ≤ 10000 ∧
    (10000 - lastPullTs c7db 1 < PULL_COOLDOWN_SECONDS) ∧
    daily_card c7db 1 10000 "Common" 0 =
      (PullResult.cooldown (PULL_COOLDOWN_SECONDS - (10000 - lastPullTs c7db 1)), c7db) ∧
    get_time_left (daily_card c7db 1 20000 "Common" 0).2 1 20000 = PULL_COOLDOWN_SECONDS :=
  ⟨by decide, by decide,
    (cooldown_correctness c7db 1 10000 (by decide)).2.1 (by decide) "Common" 0,
    ((cooldown_correctness c7db 1 20000 (by decide)).2.2 "Common" 0
      ⟨"A", "CardA", "Common", "", none, none, none, none⟩ (by decide) (by decide)).1⟩

/-! ### Claim about the leaderboard -/

/-- Rarity points exactly as the spec's §4.4 table states them. -/
def specRarityPoints (r : String) : Int :=
  if r = "Common" then 1
  else if r = "Rare" then 2
  else if r = "Ultra Rare" then 5
  else if r = "Legendary" then 10
  else 0

/-- The spec's total quantity: the sum of the account's holding quantities. -/
def specTotalQuantity (db : DB) (u : Nat) : Int :=
  ((db.user_cards.filter (fun h => h.user_id == u)).map (fun h => h.qty)).sum

/-- The spec's weighted score: the sum over the account's holdings of quantity
times the rarity points of the held item's rarity. -/
def specWeightedScore (db : DB) (u : Nat) : Int :=
  ((db.user_cards.filter (fun h => h.user_id == u)).map
    (fun h => h.qty * specRarityPoints
      (((db.cards.find? (fun cd => cd.id == h.card_id)).map (fun cd => cd.rarity)).getD ""))).sum

theorem join_sum_qty (db : DB) (m : List HoldingRow)
    (hFK : ∀ h ∈ m, ∃ cd ∈ db.cards, cd.id = h.card_id) :
    ((m.filterMap (fun h => (db.cards.find? (fun cd => cd.id == h.card_id)).map
        (fun cd => (h, cd)))).map (fun p => p.1.qty)).sum
      = (m.map (fun h => h.qty)).sum := by
  induction m with
  | nil => rfl
  | cons a t ih =>
    have hsome : (db.cards.find? (fun cd => cd.id == a.card_id)).isSome := by
      rw [List.find?_isSome]
      obtain ⟨cd, hmem, hid⟩ := hFK a (List.mem_cons_self a t)
      exact ⟨cd, hmem, by simp [hid]⟩
    obtain ⟨cd0, hcd0⟩ := Option.isSome_iff_exists.1 hsome
    simp only [List.filterMap_cons, hcd0, Option.map_some', List.map_cons, List.sum_cons]
    rw [ih (fun h hh => hFK h (List.mem_cons_of_mem a hh))]

theorem join_sum_score (db : DB) (m : List HoldingRow)
    (hFK : ∀ h ∈ m, ∃ cd ∈ db.cards, cd.id = h.card_id)
    (hRar : ∀ cd ∈ db.cards, cd.rarity = "Common" ∨ cd.rarity = "Rare" ∨
      cd.rarity = "Ultra Rare" ∨ cd.rarity = "Legendary") :
    ((m.filterMap (fun h => (db.cards.find? (fun cd => cd.id == h.card_id)).map
        (fun cd => (h, cd)))).map (fun p => p.1.qty * casePoints p.2.rarity)).sum
      = (m.map (fun h => h.qty * specRarityPoints
          (((db.cards.find? (fun cd => cd.id == h.card_id)).map
            (fun cd => cd.rarity)).getD ""))).sum := by
  induction m with
  | nil => rfl
  | cons a t ih =>
    have hsome : (db.cards.find? (fun cd => cd.id == a.card_id)).isSome := by
      rw [List.find?_isSome]
      obtain ⟨cd, hmem, hid⟩ := hFK a (List.mem_cons_self a t)
      exact ⟨cd, hmem, by simp [hid]⟩
    obtain ⟨cd0, hcd0⟩ := Option.isSome_iff_exists.1 hsome
    have hcd0mem : cd0 ∈ db.cards := List.mem_of_find?_eq_some hcd0
    have hpoints : casePoints cd0.rarity = specRarityPoints cd0.rarity := by
      rcases hRar cd0 hcd0mem with h | h | h | h <;> rw [h] <;> decide
    simp only [List.filterMap_cons, hcd0, Option.map_some', Option.getD_some,
      List.map_cons, List.sum_cons]
    rw [ih (fun h hh => hFK h (List.mem_cons_of_mem a hh)), hpoints]

theorem cards_total_eq_spec (db : DB) (u : Nat)
    (hFK : ∀ h ∈ db.user_cards, ∃ cd ∈ db.cards, cd.id = h.card_id) :
    cards_total db u = specTotalQuantity db u := by
  unfold cards_total joinedRows specTotalQuantity
  exact join_sum_qty db _ (fun h hh => hFK h (List.mem_of_mem_filter hh))

theorem score_eq_spec (db : DB) (u : Nat)
    (hFK : ∀ h ∈ db.user_cards, ∃ cd ∈ db.cards, cd.id = h.card_id)
    (hRar : ∀ cd ∈ db.cards, cd.rarity = "Common" ∨ cd.rarity = "Rare" ∨
      cd.rarity = "Ultra Rare" ∨ cd.rarity = "Legendary") :
    score db u = specWeightedScore db u := by
  unfold score joinedRows specWeightedScore
  exact join_sum_score db _ (fun h hh => hFK h (List.mem_of_mem_filter hh)) hRar

/-- C10: under the schema's foreign-key constraint (every held card exists in
the catalog) and with the catalog using the four documented rarity classes,
every leaderboard entry carries the account's total held quantity and the
spec's weighted score {Common 1, Rare 2, Ultra Rare 5, Legendary 10}; the
output is ordered by weighted score descending with ties broken by total
quantity descending (the relation lbLE), and is truncated to at most `limit`
entries. -/
theorem leaderboard_spec (db : DB) (limit : Nat)
    (hFK : ∀ h ∈ db.user_cards, ∃ cd ∈ db.cards, cd.id = h.card_id)
    (hRar : ∀ cd ∈ db.cards, cd.rarity = "Common" ∨ cd.rarity = "Rare" ∨
      cd.rarity = "Ultra Rare" ∨ cd.rarity = "Legendary") :
    (∀ e ∈ get_collection_leaderboard db limit,
      e.cards_total = specTotalQuantity db e.user_id ∧
      e.score = specWeightedScore db e.user_id) ∧
    List.Sorted lbLE (get_collection_leaderboard db limit) ∧
    (get_collection_leaderboard db limit).length ≤ limit := by
  refine ⟨?_, ?_, ?_⟩
  · intro e he
    have he1 : e ∈ (List.insertionSort lbLE (((db.user_cards.map (fun h => h.user_id)).dedup).map
        (fun u => LBEntry.mk u (cards_total db u) (score db u)))).take limit := he
    have he2 : e ∈ ((db.user_cards.map (fun h => h.user_id)).dedup).map
        (fun u => LBEntry.mk u (cards_total db u) (score db u)) :=
      (List.perm_insertionSort lbLE _).mem_iff.1 (List.mem_of_mem_take he1)
    rcases List.mem_map.1 he2 with ⟨u, hu, rfl⟩
    exact ⟨cards_total_eq_spec db u hFK, score_eq_spec db u hFK hRar⟩
  · show List.Sorted lbLE ((List.insertionSort lbLE
      (((db.user_cards.map (fun h => h.user_id)).dedup).map
        (fun u => LBEntry.mk u (cards_total db u) (score db u)))).take limit)
    exact (List.sorted_insertionSort lbLE _).sublist (List.take_sublist _ _)
  · show ((List.insertionSort lbLE
      (((db.user_cards.map (fun h => h.user_id)).dedup).map
        (fun u => LBEntry.mk u (cards_total db u) (score db u)))).take limit).length ≤ limit
    exact le_trans (le_of_eq (List.length_take _ _)) (min_le_left _ _)

/-- Example store for C10: one Common and one Legendary card; account 1 holds
3 Commons, account 2 holds 1 Legendary and 1 Common. -/
def c10db : DB :=
  ⟨[⟨"A", "CardA", "Common", "", none, none, none, none⟩,
    ⟨"B", "CardB", "Legendary", "", none, none, none, none⟩],
   [], [⟨1, "A", 3⟩, ⟨2, "B", 1⟩, ⟨2, "A", 1⟩], [], 1⟩

/-- C10 witness: the leaderboard theorem applied to the concrete store. -/
theorem leaderboard_spec_witness :
    (∀ h ∈ c10db.user_cards, ∃ cd ∈ c10db.cards, cd.id = h.card_id) ∧
    (∀ cd ∈ c10db.cards, cd.rarity = "Common" ∨ cd.rarity = "Rare" ∨
      cd.rarity = "Ultra Rare" ∨ cd.rarity = "Legendary") ∧
    List.Sorted lbLE (get_collection_leaderboard c10db 10) :=
  ⟨by decide, by decide, (leaderboard_spec c10db 10 (by decide) (by decide)).2.1⟩

/-! ### Claim about the cooldown constant -/

/-- C8: the claim states the cooldown constant is 21,600 seconds; the source
constant 5 * 60 * 60 is 18,000 seconds, so the claim as stated is false. -/
theorem pull_cooldown_not_21600 : PULL_COOLDOWN_SECONDS ≠ 21600 := by decide

/-- C8 (amended): the fixed per-account cooldown constant equals 18,000 seconds,
i.e. 5 hours. -/
theorem pull_cooldown_is_18000 :
    PULL_COOLDOWN_SECONDS = 18000 ∧ PULL_COOLDOWN_SECONDS = 5 * 60 * 60 := by decide

end BLTCG
